/-
Verification of the FileManager maintenance script (src/FileManager.py).

The script is a sequential pipeline: delete a configured set of files from a
local folder, re-download them from a GitHub raw-content URL into a folder,
overwrite a log file with a run report, and retry the whole cycle up to
`max_retries` times with a sleep between attempts.

Shallow embedding conventions:
* The outside world is an explicit `World` value threaded through every
  operation: the filesystem is an association list from path to content
  (file bytes are modelled as `String`), the network is an association list
  from URL to a response behaviour, and failure injection is explicit
  (`removeFails` = paths where `os.remove` raises, `openFails` = paths where
  `open(..., 'w'/'wb')` raises).
* `requests` is a trace of every HTTP GET issued (URL and timeout in
  seconds); `logWrites` is a trace of every successful log-file write.
  These traces record events the Python code performs as side effects.
* Python exceptions that escape a function are modelled with `Except` /
  a dedicated `escape` constructor; exceptions caught inside a function are
  handled inside the corresponding Lean definition, mirroring the
  `try`/`except` structure of the source.
* `time.sleep` is modelled by counting sleeps and the seconds requested;
  `sys.exit(n)` is modelled by returning a `RunResult` with `exitCode := n`.
* `ensure_directory_exists` (mkdir -p) is modelled as a no-op on the world:
  directories play no role in any claim, only file paths do.
* `datetime.now()` is modelled by the `now : String` field of the world.
-/
import Mathlib

set_option autoImplicit false

namespace FileManager

/-- The `CONFIG` dictionary of FileManager.py as an immutable record. -/
structure Config where
  delete_folder : String
  files_to_delete : List String
  github_user : String
  github_repo : String
  github_branch : String
  files_to_download : List String
  download_folder : String
  log_file : String
  max_retries : Nat
  retry_delay_minutes : Nat
  deriving Repr, DecidableEq

/-- The literal `CONFIG` value from the top of FileManager.py. -/
def CONFIG : Config :=
  { delete_folder := "/home/sb4/MagicMirror/modules/MMM-Planefinder"
    files_to_delete := ["aircraft.csv", "airports.csv", "airlines.csv"]
    github_user := "kds54"
    github_repo := "MMM-Planefinder"
    github_branch := "main"
    files_to_download := ["aircraft.csv", "airports.csv", "airlines.csv"]
    download_folder := "/home/sb4/MagicMirror/modules/MMM-Planefinder"
    log_file := "/home/sb4/venv/FileManager/FileManager_Log.txt"
    max_retries := 3
    retry_delay_minutes := 2 }

/-- Behaviour of the network for one URL: either a successful response with a
body (2xx), or a `requests.exceptions.RequestException` carrying `str(e)`.
Non-success HTTP statuses are `reqError` too: `response.raise_for_status()`
turns them into `requests.exceptions.HTTPError`, a `RequestException`. -/
inductive HttpResult where
  | success (body : String)
  | reqError (msg : String)
  deriving Repr, DecidableEq

/-- The state of the outside world threaded through the script. -/
structure World where
  /-- Filesystem: association list path ↦ file content (first match wins). -/
  fs : List (String × String)
  /-- Paths where `os.remove` raises; the value is `str(e)`. -/
  removeFails : List (String × String)
  /-- Paths where opening for writing raises (OSError). -/
  openFails : List String
  /-- Network oracle: URL ↦ response behaviour. A URL not listed behaves as
  a connection error (also a `RequestException`). -/
  net : List (String × HttpResult)
  /-- Trace of HTTP GETs issued: (URL, timeout in seconds). -/
  requests : List (String × Nat)
  /-- Trace of log-report texts successfully written to the log file. -/
  logWrites : List String
  /-- Fixed rendering of `datetime.datetime.now().strftime(...)`. -/
  now : String
  deriving Repr, DecidableEq

/-- Model of `os.path.join(folder, name)` for a relative `name`, the only
shape the script uses. -/
def joinPath (folder name : String) : String := folder ++ "/" ++ name

/-- Model of `os.path.basename`: the component after the last slash (the
longest slash-free suffix of the path). -/
def basename (p : String) : String :=
  String.mk ((p.data.reverse.takeWhile (fun c => c != '/')).reverse)

/-- Read a file: `some content` when the path exists. -/
def readFile (w : World) (p : String) : Option String := List.lookup p w.fs

/-- Model of opening `p` for writing followed by a full write: replaces any
previous content at `p` (truncating write, never append). -/
def writeFile (w : World) (p : String) (content : String) : World :=
  { w with fs := (p, content) :: w.fs.filter (fun e => e.1 != p) }

/-- Model of `os.remove p`: drop the path from the filesystem. -/
def removeFile (w : World) (p : String) : World :=
  { w with fs := w.fs.filter (fun e => e.1 != p) }

/-- Model of `requests.get(url, timeout)`: records the request in the trace
and consults the network oracle. -/
def httpGet (w : World) (url : String) (timeoutSecs : Nat) : World × HttpResult :=
  ({ w with requests := w.requests ++ [(url, timeoutSecs)] },
   match List.lookup url w.net with
   | some r => r
   | none => HttpResult.reqError "connection error")

/-- The error message `delete_files` records for a failing removal
(`f"Error deleting {filename}: {str(e)}"`). -/
def deleteErrMsg (filename msg : String) : String :=
  "Error deleting " ++ filename ++ ": " ++ msg

/-- Loop body of `delete_files` over the remaining filenames, returning the
final world, the `deleted_files` list and the `errors` list.
For each filename: if the joined path exists, try `os.remove` — an injected
failure is caught by the `except` and recorded via `deleteErrMsg`, success
records the filename in `deleted_files`; a missing file is skipped. -/
def delete_files_go (folder : String) (files : List String) (w : World) :
    World × List String × List String :=
  match files with
  | [] => (w, [], [])
  | filename :: rest =>
    if (List.lookup (joinPath folder filename) w.fs).isSome then
      match List.lookup (joinPath folder filename) w.removeFails with
      | some msg =>
        let r := delete_files_go folder rest w
        (r.1, r.2.1, deleteErrMsg filename msg :: r.2.2)
      | none =>
        let r := delete_files_go folder rest (removeFile w (joinPath folder filename))
        (r.1, filename :: r.2.1, r.2.2)
    else
      delete_files_go folder rest w

/-- The function `delete_files()`: deletes `files_to_delete` from
`delete_folder`. -/
def delete_files (cfg : Config) (w : World) : World × List String × List String :=
  delete_files_go cfg.delete_folder cfg.files_to_delete w

/-- The GitHub raw-content URL built by `download_file_from_github`. -/
def rawUrl (cfg : Config) (file_path : String) : String :=
  "https://raw.githubusercontent.com/" ++ cfg.github_user ++ "/" ++
    cfg.github_repo ++ "/" ++ cfg.github_branch ++ "/" ++ file_path

/-- The error message recorded for a failed download
(`f"Error downloading {file_path}: {str(e)}"`). -/
def downloadErrMsg (file_path msg : String) : String :=
  "Error downloading " ++ file_path ++ ": " ++ msg

/-- Result of `download_file_from_github`: `ret w none` is the `(True, None)`
return, `ret w (some e)` is `(False, error_msg)`, and `escape w exn` is an
exception escaping the function (only the file write can raise one: the
`except` clause catches `RequestException` alone, so an OSError from
`open(local_path, 'wb')` propagates to the caller). -/
inductive DownloadOutcome where
  | ret (w : World) (error : Option String)
  | escape (w : World) (exn : String)
  deriving Repr, DecidableEq

/-- The function `download_file_from_github(file_path)` with the default
`local_filename = os.path.basename(file_path)`: one GET of the raw URL with a
30-second timeout; a `RequestException` (bad status or network error) is
caught and returned as `(False, error_msg)`; on success the body is written
verbatim to `download_folder/basename`, and a failing open escapes. -/
def download_file_from_github (cfg : Config) (w : World) (file_path : String) :
    DownloadOutcome :=
  let local_filename := basename file_path
  let url := rawUrl cfg file_path
  let gr := httpGet w url 30
  match gr.2 with
  | HttpResult.success body =>
    let local_path := joinPath cfg.download_folder local_filename
    if gr.1.openFails.contains local_path then
      DownloadOutcome.escape gr.1 ("could not open " ++ local_path)
    else
      DownloadOutcome.ret (writeFile gr.1 local_path body) none
  | HttpResult.reqError msg =>
    DownloadOutcome.ret gr.1 (some (downloadErrMsg file_path msg))

/-- Loop body of `download_github_files` over the remaining repo paths,
with the `downloaded_files` and `errors` lists accumulated so far (the
Python loop appends to them). `Except.error (w, exn)` models an exception
escaping the loop: the remaining files are not attempted and the
accumulated lists are lost. -/
def download_github_files_go (cfg : Config) (files : List String) (w : World)
    (downloaded_files errors : List String) :
    Except (World × String) (World × List String × List String) :=
  match files with
  | [] => Except.ok (w, downloaded_files, errors)
  | p :: rest =>
    match download_file_from_github cfg w p with
    | DownloadOutcome.escape w1 exn => Except.error (w1, exn)
    | DownloadOutcome.ret w1 none =>
      download_github_files_go cfg rest w1 (downloaded_files ++ [basename p]) errors
    | DownloadOutcome.ret w1 (some err) =>
      download_github_files_go cfg rest w1 downloaded_files (errors ++ [err])

/-- The function `download_github_files()`: ensures the download directory
exists (a
world no-op here) and downloads every configured file, starting from empty
`downloaded_files` and `errors` lists. -/
def download_github_files (cfg : Config) (w : World) :
    Except (World × String) (World × List String × List String) :=
  download_github_files_go cfg cfg.files_to_download w [] []

/-- The `attempt_text` inserted in the log header:
`f" (Attempt {attempt_number})" if attempt_number > 1 else ""`. -/
def attemptText (attempt_number : Nat) : String :=
  if attempt_number > 1 then " (Attempt " ++ toString attempt_number ++ ")" else ""

/-- The 60-`=` banner line (`'='*60`). -/
def banner60 : String := String.mk (List.replicate 60 '=')

/-- The bullet-list rendering of the report: one line per item made of two
spaces, a dash and the item, joined by newlines (chr(10)); the placeholder
line reading None when the list is empty. -/
def bulletList (l : List String) : String :=
  if l.isEmpty then "  None"
  else String.intercalate "\n" (l.map (fun x => "  - " ++ x))

/-- The `log_entry` f-string of `log_completion`, rendered verbatim. -/
def logEntry (deleted_files downloaded_files errors : List String)
    (timestamp : String) (attempt_number : Nat) : String :=
  banner60 ++ "\n" ++
  "File Management Script Execution" ++ attemptText attempt_number ++ "\n" ++
  "Timestamp: " ++ timestamp ++ "\n" ++
  banner60 ++ "\n" ++
  "\n" ++
  "DELETED FILES (" ++ toString deleted_files.length ++ "):\n" ++
  bulletList deleted_files ++ "\n" ++
  "\n" ++
  "DOWNLOADED FILES (" ++ toString downloaded_files.length ++ "):\n" ++
  bulletList downloaded_files ++ "\n" ++
  "\n" ++
  "ERRORS (" ++ toString errors.length ++ "):\n" ++
  bulletList errors ++ "\n" ++
  "\n" ++
  "Status: " ++
    (if errors.isEmpty then "COMPLETED SUCCESSFULLY" else "COMPLETED WITH ERRORS") ++
    "\n" ++
  banner60 ++ "\n"

/-- The function `log_completion(...)`: formats the report and overwrites
the log file
(`open(log_file, 'w')`). A write failure is caught inside (`except
Exception`) and reported by returning `false`; success appends the report to
the `logWrites` trace and returns `true`. -/
def log_completion (cfg : Config) (w : World)
    (deleted_files downloaded_files errors : List String)
    (attempt_number : Nat) : World × Bool :=
  let entry := logEntry deleted_files downloaded_files errors w.now attempt_number
  if w.openFails.contains cfg.log_file then
    (w, false)
  else
    let w1 := writeFile w cfg.log_file entry
    ({ w1 with logWrites := w1.logWrites ++ [entry] }, true)

/-- The function `run_file_management()`: delete step then download step,
with
`all_errors` the delete errors followed by the download errors. An exception
escaping the download step escapes this function too. -/
def run_file_management (cfg : Config) (w : World) :
    Except (World × String) (World × List String × List String × List String) :=
  let d := delete_files cfg w
  match download_github_files cfg d.1 with
  | Except.ok (w2, downloaded, download_errors) =>
    Except.ok (w2, d.2.1, downloaded, d.2.2 ++ download_errors)
  | Except.error e => Except.error e

/-- Observable outcome of `main()`: the `sys.exit` code, how many
`time.sleep` calls ran and for how many seconds in total, how many attempts
executed, and the final world. -/
structure RunResult where
  exitCode : Nat
  sleeps : Nat
  sleptSeconds : Nat
  attempts : Nat
  world : World
  deriving Repr, DecidableEq

/-- The retry loop of `main()`: `attempt` is the 1-based attempt number and
`remaining` the number of loop iterations left (`max_retries - attempt + 1`),
so `0 < remaining - 1` is exactly the source's `attempt < max_retries` test.
Each iteration runs `run_file_management`; on a normal return it logs via
`log_completion`, then exits 0 on no errors, else sleeps
`retry_delay_minutes * 60` seconds and retries while attempts remain,
else exits 1. An exception escaping the attempt is caught at the attempt
level and subject to the same retry/sleep policy without logging.
`remaining = 0` is the fall-through after the loop (`sys.exit(1)`). -/
def mainLoop (cfg : Config) (w : World) (attempt : Nat) : Nat → RunResult
  | 0 => { exitCode := 1, sleeps := 0, sleptSeconds := 0, attempts := 0, world := w }
  | r + 1 =>
    match run_file_management cfg w with
    | Except.ok (w1, deleted_files, downloaded_files, all_errors) =>
      let lr := log_completion cfg w1 deleted_files downloaded_files all_errors attempt
      if all_errors.isEmpty then
        { exitCode := 0, sleeps := 0, sleptSeconds := 0, attempts := 1, world := lr.1 }
      else if 0 < r then
        let res := mainLoop cfg lr.1 (attempt + 1) r
        { res with sleeps := res.sleeps + 1,
                   sleptSeconds := res.sleptSeconds + cfg.retry_delay_minutes * 60,
                   attempts := res.attempts + 1 }
      else
        { exitCode := 1, sleeps := 0, sleptSeconds := 0, attempts := 1, world := lr.1 }
    | Except.error (w1, _exn) =>
      if 0 < r then
        let res := mainLoop cfg w1 (attempt + 1) r
        { res with sleeps := res.sleeps + 1,
                   sleptSeconds := res.sleptSeconds + cfg.retry_delay_minutes * 60,
                   attempts := res.attempts + 1 }
      else
        { exitCode := 1, sleeps := 0, sleptSeconds := 0, attempts := 1, world := w1 }

/-- The function `main()`: run the retry loop from attempt 1 with
`max_retries`
iterations available. -/
def main (cfg : Config) (w : World) : RunResult :=
  mainLoop cfg w 1 cfg.max_retries

/-- Modelled from the spec: the simple (non-retry) orchestrator variant,
whose script is not under src/. Per the spec it "runs Deleter then
Downloader exactly once, logs the result, exits with code 0 if no errors
occurred across either step, else exits with code 1"; it never sleeps, and
an exception escaping the single attempt ends the process with exit code 1
(the spec's process contract: exit 0 on full success, 1 on any unresolved
error). -/
def spec_simple_main (cfg : Config) (w : World) : RunResult :=
  match run_file_management cfg w with
  | Except.ok (w1, deleted_files, downloaded_files, errors) =>
    let lr := log_completion cfg w1 deleted_files downloaded_files errors 1
    if errors.isEmpty then
      { exitCode := 0, sleeps := 0, sleptSeconds := 0, attempts := 1, world := lr.1 }
    else
      { exitCode := 1, sleeps := 0, sleptSeconds := 0, attempts := 1, world := lr.1 }
  | Except.error (w1, _exn) =>
    { exitCode := 1, sleeps := 0, sleptSeconds := 0, attempts := 1, world := w1 }

/-- World of a per-file download outcome, whether returned or escaped. -/
def DownloadOutcome.world : DownloadOutcome → World
  | DownloadOutcome.ret w _ => w
  | DownloadOutcome.escape w _ => w

/-- World of a download-loop outcome, whether returned or escaped. -/
def downloadWorld :
    Except (World × String) (World × List String × List String) → World
  | Except.ok (w, _, _) => w
  | Except.error (w, _) => w

section Lemmas

/-- Looking a key up after filtering another key out of an association
list: the filtered key reads as absent, every other key is unchanged. -/
theorem lookup_filter_ne (fs : List (String × String)) (p q : String) :
    List.lookup p (fs.filter (fun e => e.1 != q)) =
      if p = q then none else List.lookup p fs := by
  induction fs with
  | nil => simp
  | cons e rest ih =>
    obtain ⟨k, v⟩ := e
    by_cases hkq : k = q
    · subst hkq
      by_cases hp : p = k
      · subst hp
        simp [List.lookup, ih]
      · simp only [List.filter, bne_self_eq_false, ih]
        simp [List.lookup, show (p == k) = false from beq_eq_false_iff_ne.mpr hp, hp]
    · by_cases hp : p = k
      · subst hp
        simp [List.filter, List.lookup, show (p != q) = true by simp [hkq], hkq]
      · simp [List.filter, List.lookup, ih, show (k != q) = true by simp [hkq],
          show (p == k) = false from beq_eq_false_iff_ne.mpr hp]

theorem readFile_writeFile (w : World) (p c p' : String) :
    readFile (writeFile w p c) p' = if p' = p then some c else readFile w p' := by
  by_cases h : p' = p
  · subst h; simp [readFile, writeFile, List.lookup]
  · simp [readFile, writeFile, List.lookup, h, lookup_filter_ne,
      show (p' == p) = false from beq_eq_false_iff_ne.mpr h]

theorem readFile_removeFile (w : World) (p p' : String) :
    readFile (removeFile w p) p' = if p' = p then none else readFile w p' := by
  simp [readFile, removeFile, lookup_filter_ne]

/-- If a path is absent, the delete loop keeps it absent (deletion never
creates files). -/
theorem delete_go_preserves_none (folder : String) (files : List String) :
    ∀ w : World, ∀ p : String, readFile w p = none →
      readFile (delete_files_go folder files w).1 p = none := by
  induction files with
  | nil => intro w p h; simpa [delete_files_go] using h
  | cons f rest ih =>
    intro w p h
    simp only [delete_files_go]
    split
    · split
      · exact ih w p h
      · exact ih (removeFile w (joinPath folder f)) p (by
          rw [readFile_removeFile]; split <;> simp [h])
    · exact ih w p h

/-- Every filename in the returned `deleted_files` list existed in the
initial world. -/
theorem mem_deleted_existed (folder : String) (files : List String) :
    ∀ w : World, ∀ g : String, g ∈ (delete_files_go folder files w).2.1 →
      (readFile w (joinPath folder g)).isSome := by
  induction files with
  | nil => intro w g h; simp [delete_files_go] at h
  | cons f rest ih =>
    intro w g hg
    by_cases hnone : readFile w (joinPath folder g) = none
    · exfalso
      simp only [delete_files_go] at hg
      split at hg
      · split at hg
        · exact absurd (ih w g hg) (by simp [hnone])
        · rcases List.mem_cons.mp hg with hfg | hg
          · subst hfg
            rename_i hsome _
            exact absurd hsome (by simp [show List.lookup (joinPath folder g) w.fs = none from hnone])
          · have := ih (removeFile w (joinPath folder f)) g hg
            rw [readFile_removeFile] at this
            revert this
            split <;> simp [hnone]
      · exact absurd (ih w g hg) (by simp [hnone])
    · exact Option.isSome_iff_ne_none.mpr hnone

end Lemmas

/-- C3: a filename in `files_to_delete` whose path is absent from the delete
folder is a skipped no-op for the Deleter: the run is identical to the run
with that filename filtered out of the list (so it contributes no entry to
the error list, no entry to the deleted-files list, and no world change),
and in particular it never appears among the deleted files. -/
theorem delete_missing_skipped (folder : String) (files : List String)
    (w : World) (f : String) (h : readFile w (joinPath folder f) = none) :
    delete_files_go folder files w =
      delete_files_go folder (files.filter (fun g => g != f)) w ∧
    f ∉ (delete_files_go folder files w).2.1 := by
  constructor
  · induction files generalizing w with
    | nil => rfl
    | cons g rest ih =>
      by_cases hgf : g = f
      · subst hgf
        have hn : (List.lookup (joinPath folder g) w.fs).isSome = false := by
          simp [show List.lookup (joinPath folder g) w.fs = none from h]
        simp only [List.filter, bne_self_eq_false]
        simp only [delete_files_go, hn, Bool.false_eq_true, if_false]
        exact ih w h
      · have hkeep : (g != f) = true := by simp [hgf]
        simp only [List.filter, hkeep]
        simp only [delete_files_go]
        split
        · split
          · rw [ih w h]
          · rw [ih (removeFile w (joinPath folder g)) (by
              rw [readFile_removeFile]; split <;> simp [h])]
        · exact ih w h
  · intro hmem
    have := mem_deleted_existed folder files w f hmem
    simp [h] at this

/-- C4: the Deleter never raises past its boundary. It always returns the
pair of lists; every returned error message is `deleteErrMsg f msg` for some
configured filename `f` whose removal the world makes fail with cause `msg`
(so the message contains the filename and the cause); and after such a
failure the loop continues with the remaining files, merely prepending the
error message to their result. -/
theorem delete_never_raises (folder : String) (files : List String) (w : World) :
    (∀ e ∈ (delete_files_go folder files w).2.2, ∃ f ∈ files, ∃ msg,
        List.lookup (joinPath folder f) w.removeFails = some msg ∧
        e = deleteErrMsg f msg) ∧
    (∀ filename msg rest,
        (List.lookup (joinPath folder filename) w.fs).isSome →
        List.lookup (joinPath folder filename) w.removeFails = some msg →
        delete_files_go folder (filename :: rest) w =
          ((delete_files_go folder rest w).1,
           (delete_files_go folder rest w).2.1,
           deleteErrMsg filename msg :: (delete_files_go folder rest w).2.2)) := by
  constructor
  · induction files generalizing w with
    | nil => intro e he; simp [delete_files_go] at he
    | cons g rest ih =>
      intro e he
      unfold delete_files_go at he
      split at he
      · rename_i hfail
        split at he
        · rename_i msg hmsg
          rcases List.mem_cons.mp he with he | he
          · exact ⟨g, List.mem_cons_self g rest, msg, hmsg, he⟩
          · obtain ⟨f, hf, m, hm, hem⟩ := ih w e he
            exact ⟨f, List.mem_cons_of_mem g hf, m, hm, hem⟩
        · obtain ⟨f, hf, m, hm, hem⟩ :=
            ih (removeFile w (joinPath folder g)) e he
          exact ⟨f, List.mem_cons_of_mem g hf, m, hm, hem⟩
      · obtain ⟨f, hf, m, hm, hem⟩ := ih w e he
        exact ⟨f, List.mem_cons_of_mem g hf, m, hm, hem⟩
  · intro filename msg rest hex hfail
    simp only [delete_files_go, hex, hfail, if_true]

/-- A small world for concrete instantiations: one deletable file present,
one file whose removal raises, a download whose write target cannot be
opened, and a writable log file. -/
def wEx : World :=
  { fs := [("/d/a.csv", "old-a"), ("/d/p.csv", "old-p")]
    removeFails := [("/d/p.csv", "Permission denied")]
    openFails := []
    net := []
    requests := []
    logWrites := []
    now := "2026-10-12 00:00:00" }

theorem delete_missing_skipped_witness :
    delete_files_go "/d" ["a.csv", "b.csv"] wEx =
      delete_files_go "/d" (["a.csv", "b.csv"].filter (fun g => g != "b.csv")) wEx ∧
    "b.csv" ∉ (delete_files_go "/d" ["a.csv", "b.csv"] wEx).2.1 :=
  delete_missing_skipped "/d" ["a.csv", "b.csv"] wEx "b.csv" (by decide)

theorem delete_never_raises_witness :
    (∃ f ∈ ["p.csv", "a.csv"], ∃ msg,
        List.lookup (joinPath "/d" f) wEx.removeFails = some msg ∧
        deleteErrMsg "p.csv" "Permission denied" = deleteErrMsg f msg) ∧
    delete_files_go "/d" ["p.csv", "a.csv"] wEx =
      ((delete_files_go "/d" ["a.csv"] wEx).1,
       (delete_files_go "/d" ["a.csv"] wEx).2.1,
       deleteErrMsg "p.csv" "Permission denied" ::
         (delete_files_go "/d" ["a.csv"] wEx).2.2) :=
  ⟨(delete_never_raises "/d" ["p.csv", "a.csv"] wEx).1
      (deleteErrMsg "p.csv" "Permission denied") (by decide),
   (delete_never_raises "/d" ["p.csv", "a.csv"] wEx).2
      "p.csv" "Permission denied" ["a.csv"] (by decide) (by decide)⟩

/-- C5: per configured repo path, the Downloader issues exactly one GET, to
the raw-content URL, with a 30-second timeout (the request trace grows by
exactly that one entry in every outcome); a successful response body is
written verbatim to `download_folder/basename(path)`, overwriting whatever
was there; a request failure (non-success status or network error) is
returned as the recorded error message for that file. -/
theorem download_per_file (cfg : Config) (w : World) (p : String) :
    (download_file_from_github cfg w p).world.requests =
        w.requests ++ [(rawUrl cfg p, 30)] ∧
    (∀ body, List.lookup (rawUrl cfg p) w.net = some (HttpResult.success body) →
      joinPath cfg.download_folder (basename p) ∉ w.openFails →
      download_file_from_github cfg w p =
        DownloadOutcome.ret
          (writeFile { w with requests := w.requests ++ [(rawUrl cfg p, 30)] }
            (joinPath cfg.download_folder (basename p)) body) none ∧
      readFile (download_file_from_github cfg w p).world
          (joinPath cfg.download_folder (basename p)) = some body) ∧
    (∀ msg, List.lookup (rawUrl cfg p) w.net = some (HttpResult.reqError msg) →
      download_file_from_github cfg w p =
        DownloadOutcome.ret { w with requests := w.requests ++ [(rawUrl cfg p, 30)] }
          (some (downloadErrMsg p msg))) := by
  refine ⟨?_, ?_, ?_⟩
  · unfold download_file_from_github httpGet
    cases hl : List.lookup (rawUrl cfg p) w.net with
    | none => simp [hl, DownloadOutcome.world, writeFile]
    | some r =>
      cases r with
      | success body =>
        simp only [hl]
        split <;> simp [DownloadOutcome.world, writeFile]
      | reqError msg => simp [hl, DownloadOutcome.world]
  · intro body hl ho
    constructor
    · simp [download_file_from_github, httpGet, hl, ho]
    · simp [download_file_from_github, httpGet, hl, ho, DownloadOutcome.world,
        readFile_writeFile]
  · intro msg hl
    simp [download_file_from_github, httpGet, hl]

/-- World `wEx` with a successful response for one configured file. -/
def wNet : World :=
  { wEx with net := [(rawUrl CONFIG "airports.csv", HttpResult.success "BODY")] }

theorem download_per_file_witness :
    (download_file_from_github CONFIG wNet "airports.csv").world.requests =
      wNet.requests ++ [(rawUrl CONFIG "airports.csv", 30)] ∧
    readFile (download_file_from_github CONFIG wNet "airports.csv").world
      (joinPath CONFIG.download_folder (basename "airports.csv")) = some "BODY" :=
  ⟨(download_per_file CONFIG wNet "airports.csv").1,
   ((download_per_file CONFIG wNet "airports.csv").2.1 "BODY" rfl (by decide)).2⟩

/-- C6: the Logger always fully overwrites the log file: after a successful
log write the log file's content is exactly the report of that write,
whatever the file held before (the initial world is arbitrary), and a second
write leaves only the second report. -/
theorem log_overwrites (cfg : Config) (w : World)
    (d dl e d2 dl2 e2 : List String) (a a2 : Nat)
    (h : cfg.log_file ∉ w.openFails) :
    (log_completion cfg w d dl e a).2 = true ∧
    readFile (log_completion cfg w d dl e a).1 cfg.log_file =
      some (logEntry d dl e w.now a) ∧
    (log_completion cfg (log_completion cfg w d dl e a).1 d2 dl2 e2 a2).2 = true ∧
    readFile (log_completion cfg (log_completion cfg w d dl e a).1 d2 dl2 e2 a2).1
        cfg.log_file = some (logEntry d2 dl2 e2 w.now a2) := by
  have h2 : cfg.log_file ∉ (log_completion cfg w d dl e a).1.openFails := by
    simp [log_completion, h, writeFile]
  refine ⟨?_, ?_, ?_, ?_⟩ <;>
    simp [log_completion, h, h2, readFile, writeFile, List.lookup]

theorem log_overwrites_witness :
    readFile (log_completion CONFIG wEx ["a.csv"] [] [] 1).1 CONFIG.log_file =
      some (logEntry ["a.csv"] [] [] wEx.now 1) ∧
    readFile (log_completion CONFIG (log_completion CONFIG wEx ["a.csv"] [] [] 1).1
        [] ["b.csv"] ["err"] 2).1 CONFIG.log_file =
      some (logEntry [] ["b.csv"] ["err"] wEx.now 2) :=
  ⟨(log_overwrites CONFIG wEx ["a.csv"] [] [] [] ["b.csv"] ["err"] 1 2 (by decide)).2.1,
   (log_overwrites CONFIG wEx ["a.csv"] [] [] [] ["b.csv"] ["err"] 1 2 (by decide)).2.2.2⟩

/-- A configuration whose single download always fails (no network entry),
used for concrete instantiations of the retry claims. -/
def cfgF : Config :=
  { delete_folder := "/d"
    files_to_delete := []
    github_user := "u"
    github_repo := "r"
    github_branch := "main"
    files_to_download := ["x.csv"]
    download_folder := "/dl"
    log_file := "/log.txt"
    max_retries := 2
    retry_delay_minutes := 2 }

/-- An empty-filesystem world with no network. -/
def wF : World :=
  { fs := [], removeFails := [], openFails := [], net := [],
    requests := [], logWrites := [], now := "TS" }

/-- World `wF` after the one failing GET of `cfgF`. -/
def wF1 : World := { wF with requests := [(rawUrl cfgF "x.csv", 30)] }

/-- The error list a `cfgF` attempt accumulates. -/
def errsF : List String := [downloadErrMsg "x.csv" "connection error"]

/-- A configuration whose single download succeeds but whose local write
target cannot be opened, so the save raises. -/
def cfg9 : Config := { cfgF with max_retries := 1 }

/-- World for `cfg9`: the GET succeeds, the local file cannot be opened. -/
def w9 : World :=
  { wF with openFails := ["/dl/x.csv"]
            net := [(rawUrl cfg9 "x.csv", HttpResult.success "BODY")] }

/-- C9: an OSError while saving a successfully fetched body is not recorded
as a per-file download error: `download_file_from_github` escapes (its
`except` clause only catches `RequestException`), the download loop
propagates the escape — after exactly the one GET already issued, so the
remaining files are never attempted and no error list is returned — and an
attempt ending that way reaches the attempt-level handler of `main`, which
on the final attempt exits 1. -/
theorem download_escape_propagates (cfg : Config) (w : World) (p : String)
    (body : String) (rest : List String) (a : Nat)
    (hnet : List.lookup (rawUrl cfg p) w.net = some (HttpResult.success body))
    (hopen : joinPath cfg.download_folder (basename p) ∈ w.openFails) :
    (download_file_from_github cfg w p =
      DownloadOutcome.escape { w with requests := w.requests ++ [(rawUrl cfg p, 30)] }
        ("could not open " ++ joinPath cfg.download_folder (basename p)) ∧
     (∀ dla errsa, download_github_files_go cfg (p :: rest) w dla errsa =
       Except.error ({ w with requests := w.requests ++ [(rawUrl cfg p, 30)] },
         "could not open " ++ joinPath cfg.download_folder (basename p)))) ∧
    (∀ w2 exn2, run_file_management cfg w = Except.error (w2, exn2) →
      mainLoop cfg w a 1 =
        { exitCode := 1, sleeps := 0, sleptSeconds := 0, attempts := 1, world := w2 }) := by
  have h1 : download_file_from_github cfg w p =
      DownloadOutcome.escape { w with requests := w.requests ++ [(rawUrl cfg p, 30)] }
        ("could not open " ++ joinPath cfg.download_folder (basename p)) := by
    simp [download_file_from_github, httpGet, hnet, hopen]
  refine ⟨⟨h1, ?_⟩, ?_⟩
  · intro dla errsa
    simp [download_github_files_go, h1]
  · intro w2 exn2 hrun
    simp [mainLoop, hrun]

theorem download_escape_propagates_witness :
    download_github_files_go cfg9 ["x.csv"] w9 [] [] =
      Except.error ({ w9 with requests := w9.requests ++ [(rawUrl cfg9 "x.csv", 30)] },
        "could not open " ++ joinPath cfg9.download_folder (basename "x.csv")) ∧
    mainLoop cfg9 w9 1 1 =
      { exitCode := 1, sleeps := 0, sleptSeconds := 0, attempts := 1,
        world := { w9 with requests := w9.requests ++ [(rawUrl cfg9 "x.csv", 30)] } } :=
  ⟨(download_escape_propagates cfg9 w9 "x.csv" "BODY" [] 1 rfl (by decide)).1.2 [] [],
   (download_escape_propagates cfg9 w9 "x.csv" "BODY" [] 1 rfl (by decide)).2
     { w9 with requests := w9.requests ++ [(rawUrl cfg9 "x.csv", 30)] }
     ("could not open " ++ joinPath cfg9.download_folder (basename "x.csv")) rfl⟩

/-- The retry loop never executes more attempts than it has fuel for. -/
theorem mainLoop_attempts_le (cfg : Config) :
    ∀ r : Nat, ∀ w : World, ∀ a : Nat, (mainLoop cfg w a r).attempts ≤ r := by
  intro r
  induction r with
  | zero => intro w a; simp [mainLoop]
  | succ r ih =>
    intro w a
    simp only [mainLoop]
    cases hrun : run_file_management cfg w with
    | ok v =>
      obtain ⟨w1, d, dl, errs⟩ := v
      by_cases he : errs.isEmpty = true
      · simp [he]
      · by_cases hr : 0 < r
        · simp [he, hr]
          exact ih _ _
        · simp [he, hr]
    | error e =>
      obtain ⟨w1, exn⟩ := e
      by_cases hr : 0 < r
      · simp [hr]
        exact ih _ _
      · simp [hr]

/-- C1: the retry orchestration of `main`. After an attempt with no errors
the loop logs and exits 0 immediately; after an attempt with errors, while
the attempt number is strictly below `max_retries` (fuel remains) the loop
sleeps `retry_delay_minutes * 60` seconds once and continues at the next
attempt number; on the final attempt it exits 1; the loop never runs more
than `max_retries` attempts; and the log header carries the
"(Attempt n)" label exactly for attempt numbers above 1. -/
theorem retry_orchestration (cfg : Config) (w : World) (a r : Nat)
    (w1 : World) (d dl errs : List String) :
    (run_file_management cfg w = Except.ok (w1, d, dl, errs) → errs = [] →
      mainLoop cfg w a (r + 1) =
        { exitCode := 0, sleeps := 0, sleptSeconds := 0, attempts := 1,
          world := (log_completion cfg w1 d dl errs a).1 }) ∧
    (run_file_management cfg w = Except.ok (w1, d, dl, errs) → errs ≠ [] → 0 < r →
      mainLoop cfg w a (r + 1) =
        (let res := mainLoop cfg (log_completion cfg w1 d dl errs a).1 (a + 1) r
         { res with sleeps := res.sleeps + 1,
                    sleptSeconds := res.sleptSeconds + cfg.retry_delay_minutes * 60,
                    attempts := res.attempts + 1 })) ∧
    (run_file_management cfg w = Except.ok (w1, d, dl, errs) → errs ≠ [] →
      mainLoop cfg w a 1 =
        { exitCode := 1, sleeps := 0, sleptSeconds := 0, attempts := 1,
          world := (log_completion cfg w1 d dl errs a).1 }) ∧
    (main cfg w).attempts ≤ cfg.max_retries ∧
    (1 < a → attemptText a = " (Attempt " ++ toString a ++ ")") ∧
    (a ≤ 1 → attemptText a = "") ∧
    (∃ tail, logEntry d dl errs w1.now a =
      banner60 ++ "\n" ++ "File Management Script Execution" ++ attemptText a ++
        "\n" ++ tail) := by
  refine ⟨?_, ?_, ?_, mainLoop_attempts_le cfg cfg.max_retries w 1, ?_, ?_, ?_⟩
  · intro hrun hempty
    subst hempty
    simp [mainLoop, hrun]
  · intro hrun hne hr
    simp [mainLoop, hrun, List.isEmpty_eq_false_iff_exists_mem.mpr
      (List.exists_mem_of_ne_nil errs hne), hr]
  · intro hrun hne
    simp [mainLoop, hrun, List.isEmpty_eq_false_iff_exists_mem.mpr
      (List.exists_mem_of_ne_nil errs hne)]
  · intro h1
    unfold attemptText
    rw [if_pos h1]
  · intro h1
    unfold attemptText
    rw [if_neg (by omega)]
  · refine ⟨"Timestamp: " ++ w1.now ++ "\n" ++ banner60 ++ "\n" ++ "\n" ++
      "DELETED FILES (" ++ toString d.length ++ "):\n" ++ bulletList d ++ "\n" ++ "\n" ++
      "DOWNLOADED FILES (" ++ toString dl.length ++ "):\n" ++ bulletList dl ++ "\n" ++ "\n" ++
      "ERRORS (" ++ toString errs.length ++ "):\n" ++ bulletList errs ++ "\n" ++ "\n" ++
      "Status: " ++
        (if errs.isEmpty then "COMPLETED SUCCESSFULLY" else "COMPLETED WITH ERRORS") ++
        "\n" ++ banner60 ++ "\n", ?_⟩
    simp only [logEntry, String.append_assoc]

theorem retry_orchestration_witness :
    mainLoop cfgF wF 2 1 =
      { exitCode := 1, sleeps := 0, sleptSeconds := 0, attempts := 1,
        world := (log_completion cfgF wF1 [] [] errsF 2).1 } ∧
    (main cfgF wF).attempts ≤ cfgF.max_retries ∧
    attemptText 2 = " (Attempt " ++ toString 2 ++ ")" :=
  ⟨(retry_orchestration cfgF wF 2 0 wF1 [] [] errsF).2.2.1 rfl (by decide),
   (retry_orchestration cfgF wF 2 0 wF1 [] [] errsF).2.2.2.1,
   (retry_orchestration cfgF wF 2 0 wF1 [] [] errsF).2.2.2.2.1 (by decide)⟩

/-- The status line of any report, as a suffix decomposition. -/
theorem logEntry_status_suffix (d dl e : List String) (ts : String) (a : Nat) :
    ∃ pre, logEntry d dl e ts a =
      pre ++ "Status: " ++
        (if e.isEmpty then "COMPLETED SUCCESSFULLY" else "COMPLETED WITH ERRORS") ++
        "\n" ++ banner60 ++ "\n" := by
  refine ⟨banner60 ++ "\n" ++ "File Management Script Execution" ++ attemptText a ++
    "\n" ++ "Timestamp: " ++ ts ++ "\n" ++ banner60 ++ "\n" ++ "\n" ++
    "DELETED FILES (" ++ toString d.length ++ "):\n" ++ bulletList d ++ "\n" ++ "\n" ++
    "DOWNLOADED FILES (" ++ toString dl.length ++ "):\n" ++ bulletList dl ++ "\n" ++ "\n" ++
    "ERRORS (" ++ toString e.length ++ "):\n" ++ bulletList e ++ "\n" ++ "\n", ?_⟩
  simp only [logEntry]

/-- Successful log write: the log file afterwards holds exactly the report. -/
theorem log_completion_writes (cfg : Config) (w : World)
    (d dl e : List String) (a : Nat) (h : cfg.log_file ∉ w.openFails) :
    readFile (log_completion cfg w d dl e a).1 cfg.log_file =
      some (logEntry d dl e w.now a) := by
  simp [log_completion, h, readFile, writeFile, List.lookup]

/-- C2: on the normal path of an attempt, zero accumulated error messages
make the process exit 0 and leave a log whose status line reads
"COMPLETED SUCCESSFULLY"; a nonempty error list on the final attempt makes
it exit 1 and leave a log whose status line reads "COMPLETED WITH ERRORS". -/
theorem exit_code_matches_status (cfg : Config) (w : World) (a r : Nat)
    (w1 : World) (d dl errs : List String)
    (hrun : run_file_management cfg w = Except.ok (w1, d, dl, errs))
    (hopen : cfg.log_file ∉ w1.openFails) :
    (errs = [] →
      (mainLoop cfg w a (r + 1)).exitCode = 0 ∧
      readFile (mainLoop cfg w a (r + 1)).world cfg.log_file =
        some (logEntry d dl errs w1.now a) ∧
      ∃ pre, logEntry d dl errs w1.now a =
        pre ++ "Status: " ++ "COMPLETED SUCCESSFULLY" ++ "\n" ++ banner60 ++ "\n") ∧
    (errs ≠ [] →
      (mainLoop cfg w a 1).exitCode = 1 ∧
      readFile (mainLoop cfg w a 1).world cfg.log_file =
        some (logEntry d dl errs w1.now a) ∧
      ∃ pre, logEntry d dl errs w1.now a =
        pre ++ "Status: " ++ "COMPLETED WITH ERRORS" ++ "\n" ++ banner60 ++ "\n") := by
  constructor
  · intro hempty
    subst hempty
    refine ⟨by simp [mainLoop, hrun], ?_, ?_⟩
    · simp only [mainLoop, hrun]
      simp [log_completion_writes cfg w1 d dl [] a hopen]
    · obtain ⟨pre, hp⟩ := logEntry_status_suffix d dl [] w1.now a
      exact ⟨pre, by simpa using hp⟩
  · intro hne
    have hemp : errs.isEmpty = false :=
      List.isEmpty_eq_false_iff_exists_mem.mpr (List.exists_mem_of_ne_nil errs hne)
    refine ⟨by simp [mainLoop, hrun, hemp], ?_, ?_⟩
    · simp only [mainLoop, hrun]
      simp [hemp, log_completion_writes cfg w1 d dl errs a hopen]
    · obtain ⟨pre, hp⟩ := logEntry_status_suffix d dl errs w1.now a
      refine ⟨pre, ?_⟩
      rw [hp]
      simp [hemp]

theorem exit_code_matches_status_witness :
    (mainLoop cfgF wF 2 1).exitCode = 1 ∧
    readFile (mainLoop cfgF wF 2 1).world cfgF.log_file =
      some (logEntry [] [] errsF wF1.now 2) ∧
    ∃ pre, logEntry [] [] errsF wF1.now 2 =
      pre ++ "Status: " ++ "COMPLETED WITH ERRORS" ++ "\n" ++ banner60 ++ "\n" :=
  (exit_code_matches_status cfgF wF 2 0 wF1 [] [] errsF rfl (by decide)).2 (by decide)

/-- C8: with `max_retries = 1` the retrying orchestrator is extensionally
the spec's simple variant: one Deleter+Downloader cycle, no sleep, one log
write, exit 0 exactly when no errors occurred across either step. -/
theorem max_retries_one_is_simple (cfg : Config) (w : World)
    (h : cfg.max_retries = 1) : main cfg w = spec_simple_main cfg w := by
  unfold main spec_simple_main
  rw [h]
  simp only [mainLoop]
  cases hrun : run_file_management cfg w with
  | ok v =>
    obtain ⟨w1, d, dl, errs⟩ := v
    by_cases he : errs.isEmpty = true <;> simp [he]
  | error e =>
    obtain ⟨w1, exn⟩ := e
    simp

theorem max_retries_one_is_simple_witness :
    main cfg9 w9 = spec_simple_main cfg9 w9 :=
  max_retries_one_is_simple cfg9 w9 rfl

/-- All world components except the filesystem and the request trace are
unchanged: what the Deleter and Downloader preserve. -/
def sameMeta (w w' : World) : Prop :=
  w'.removeFails = w.removeFails ∧ w'.openFails = w.openFails ∧
  w'.net = w.net ∧ w'.now = w.now ∧ w'.logWrites = w.logWrites

theorem sameMeta_trans {w w' w'' : World}
    (h1 : sameMeta w w') (h2 : sameMeta w' w'') : sameMeta w w'' :=
  ⟨h2.1.trans h1.1, h2.2.1.trans h1.2.1, h2.2.2.1.trans h1.2.2.1,
   h2.2.2.2.1.trans h1.2.2.2.1, h2.2.2.2.2.trans h1.2.2.2.2⟩

/-- The delete loop only removes files at the joined delete paths: all other
world components, the request trace, and every other path are untouched. -/
theorem delete_go_frame (folder : String) (files : List String) :
    ∀ w : World,
      sameMeta w (delete_files_go folder files w).1 ∧
      (delete_files_go folder files w).1.requests = w.requests ∧
      ∀ p : String, (∀ f ∈ files, joinPath folder f ≠ p) →
        readFile (delete_files_go folder files w).1 p = readFile w p := by
  induction files with
  | nil => intro w; exact ⟨⟨rfl, rfl, rfl, rfl, rfl⟩, rfl, fun p _ => rfl⟩
  | cons f rest ih =>
    intro w
    simp only [delete_files_go]
    split
    · split
      · exact ⟨(ih w).1, (ih w).2.1,
          fun p hp => (ih w).2.2 p (fun g hg => hp g (List.mem_cons_of_mem f hg))⟩
      · refine ⟨(ih (removeFile w (joinPath folder f))).1,
          (ih (removeFile w (joinPath folder f))).2.1, ?_⟩
        intro p hp
        have hf : joinPath folder f ≠ p := hp f (List.mem_cons_self f rest)
        rw [(ih (removeFile w (joinPath folder f))).2.2 p
          (fun g hg => hp g (List.mem_cons_of_mem f hg))]
        rw [readFile_removeFile]
        exact if_neg (fun hc => hf hc.symm)
    · exact ⟨(ih w).1, (ih w).2.1,
        fun p hp => (ih w).2.2 p (fun g hg => hp g (List.mem_cons_of_mem f hg))⟩

/-- One download only touches its own local target path (and the request
trace), in every outcome. -/
theorem download_file_frame (cfg : Config) (w : World) (q : String) :
    sameMeta w (download_file_from_github cfg w q).world ∧
    ∀ p : String, joinPath cfg.download_folder (basename q) ≠ p →
      readFile (download_file_from_github cfg w q).world p = readFile w p := by
  cases hl : List.lookup (rawUrl cfg q) w.net with
  | none =>
    have h : download_file_from_github cfg w q =
        DownloadOutcome.ret { w with requests := w.requests ++ [(rawUrl cfg q, 30)] }
          (some (downloadErrMsg q "connection error")) := by
      simp [download_file_from_github, httpGet, hl]
    rw [h]
    exact ⟨⟨rfl, rfl, rfl, rfl, rfl⟩, fun p _ => rfl⟩
  | some r =>
    cases r with
    | success body =>
      by_cases hmem : joinPath cfg.download_folder (basename q) ∈ w.openFails
      · have h : download_file_from_github cfg w q =
            DownloadOutcome.escape
              { w with requests := w.requests ++ [(rawUrl cfg q, 30)] }
              ("could not open " ++ joinPath cfg.download_folder (basename q)) := by
          simp [download_file_from_github, httpGet, hl, hmem]
        rw [h]
        exact ⟨⟨rfl, rfl, rfl, rfl, rfl⟩, fun p _ => rfl⟩
      · have h : download_file_from_github cfg w q =
            DownloadOutcome.ret
              (writeFile { w with requests := w.requests ++ [(rawUrl cfg q, 30)] }
                (joinPath cfg.download_folder (basename q)) body) none := by
          simp [download_file_from_github, httpGet, hl, hmem]
        rw [h]
        refine ⟨⟨rfl, rfl, rfl, rfl, rfl⟩, ?_⟩
        intro p hp
        have : (DownloadOutcome.ret
            (writeFile { w with requests := w.requests ++ [(rawUrl cfg q, 30)] }
              (joinPath cfg.download_folder (basename q)) body) none).world =
            writeFile { w with requests := w.requests ++ [(rawUrl cfg q, 30)] }
              (joinPath cfg.download_folder (basename q)) body := rfl
        rw [this, readFile_writeFile]
        rw [if_neg (fun hc => hp hc.symm)]
        rfl
    | reqError msg =>
      have h : download_file_from_github cfg w q =
          DownloadOutcome.ret { w with requests := w.requests ++ [(rawUrl cfg q, 30)] }
            (some (downloadErrMsg q msg)) := by
        simp [download_file_from_github, httpGet, hl]
      rw [h]
      exact ⟨⟨rfl, rfl, rfl, rfl, rfl⟩, fun p _ => rfl⟩

/-- The download loop, in every outcome (normal return or escape), only
touches the joined local target paths of its files. -/
theorem download_go_frame (cfg : Config) (files : List String) :
    ∀ w : World, ∀ dla errsa : List String,
      sameMeta w (downloadWorld (download_github_files_go cfg files w dla errsa)) ∧
      ∀ p : String, (∀ q ∈ files, joinPath cfg.download_folder (basename q) ≠ p) →
        readFile (downloadWorld (download_github_files_go cfg files w dla errsa)) p =
          readFile w p := by
  induction files with
  | nil => intro w dla errsa; exact ⟨⟨rfl, rfl, rfl, rfl, rfl⟩, fun p _ => rfl⟩
  | cons q rest ih =>
    intro w dla errsa
    have hf := download_file_frame cfg w q
    simp only [download_github_files_go]
    cases hd : download_file_from_github cfg w q with
    | escape w1 exn =>
      rw [hd] at hf
      exact ⟨hf.1, fun p hp => hf.2 p (hp q (List.mem_cons_self q rest))⟩
    | ret w1 err =>
      rw [hd] at hf
      cases err with
      | none =>
        refine ⟨sameMeta_trans hf.1 (ih w1 (dla ++ [basename q]) errsa).1, ?_⟩
        intro p hp
        have h2 := (ih w1 (dla ++ [basename q]) errsa).2 p
          (fun g hg => hp g (List.mem_cons_of_mem q hg))
        rw [h2]
        exact hf.2 p (hp q (List.mem_cons_self q rest))
      | some msg =>
        refine ⟨sameMeta_trans hf.1 (ih w1 dla (errsa ++ [msg])).1, ?_⟩
        intro p hp
        have h2 := (ih w1 dla (errsa ++ [msg])).2 p
          (fun g hg => hp g (List.mem_cons_of_mem q hg))
        rw [h2]
        exact hf.2 p (hp q (List.mem_cons_self q rest))

/-- C10: an attempt that ends in the attempt-level exception handler never
calls `log_completion`: the successful-log-write trace is unchanged and the
log file keeps the content it had before the attempt (the log path being
distinct from the delete and download target paths), even when that attempt
is the final one and the process exits with code 1. -/
theorem escape_skips_logging (cfg : Config) (w : World) (a : Nat)
    (w1 : World) (exn : String)
    (hdel : ∀ f ∈ cfg.files_to_delete, joinPath cfg.delete_folder f ≠ cfg.log_file)
    (hdl : ∀ p ∈ cfg.files_to_download,
      joinPath cfg.download_folder (basename p) ≠ cfg.log_file)
    (hrun : run_file_management cfg w = Except.error (w1, exn)) :
    w1.logWrites = w.logWrites ∧
    readFile w1 cfg.log_file = readFile w cfg.log_file ∧
    mainLoop cfg w a 1 =
      { exitCode := 1, sleeps := 0, sleptSeconds := 0, attempts := 1, world := w1 } := by
  have hmain : mainLoop cfg w a 1 =
      { exitCode := 1, sleeps := 0, sleptSeconds := 0, attempts := 1, world := w1 } := by
    simp [mainLoop, hrun]
  have hrun' := hrun
  simp only [run_file_management] at hrun'
  cases hdd : download_github_files cfg (delete_files cfg w).1 with
  | ok v =>
    rw [hdd] at hrun'
    obtain ⟨w2, dl, derr⟩ := v
    exact absurd hrun' (by simp)
  | error e =>
    rw [hdd] at hrun'
    obtain ⟨w2, exn2⟩ := e
    have hw : w2 = w1 := by
      have := congrArg (fun x => match x with
        | Except.error (y, _) => y
        | Except.ok (y, _, _, _) => y) hrun'
      simpa using this
    subst hw
    obtain ⟨hm1, _hreq1, hfs1⟩ := delete_go_frame cfg.delete_folder cfg.files_to_delete w
    obtain ⟨hm2, hfs2⟩ :=
      download_go_frame cfg cfg.files_to_download (delete_files cfg w).1 [] []
    have hddgo : download_github_files_go cfg cfg.files_to_download
        (delete_files cfg w).1 [] [] = Except.error (w2, exn2) := hdd
    rw [hddgo] at hm2 hfs2
    refine ⟨?_, ?_, hmain⟩
    · exact (hm2.2.2.2.2).trans (hm1.2.2.2.2)
    · rw [show (downloadWorld (Except.error (w2, exn2))) = w2 from rfl] at hfs2
      rw [hfs2 cfg.log_file hdl]
      exact hfs1 cfg.log_file hdel

/-- World after the failing attempt of `cfg9` on `w9`. -/
def wRun9 : World := { w9 with requests := w9.requests ++ [(rawUrl cfg9 "x.csv", 30)] }

theorem escape_skips_logging_witness :
    wRun9.logWrites = w9.logWrites ∧
    readFile wRun9 cfg9.log_file = readFile w9 cfg9.log_file ∧
    mainLoop cfg9 w9 4 1 =
      { exitCode := 1, sleeps := 0, sleptSeconds := 0, attempts := 1, world := wRun9 } :=
  escape_skips_logging cfg9 w9 4 wRun9
    ("could not open " ++ joinPath cfg9.download_folder (basename "x.csv"))
    (by decide) (by decide) rfl

/-- Two worlds that agree everywhere except possibly at the log file path:
same filesystem away from `log`, same removal failures, same open failures
away from `log`, same network, same clock. The script's observable control
flow cannot distinguish them when `log` is disjoint from its delete and
download targets. -/
structure LogAgnostic (log : String) (w w' : World) : Prop where
  fs_agree : ∀ p, p ≠ log → readFile w p = readFile w' p
  rf_eq : w.removeFails = w'.removeFails
  open_agree : ∀ p, p ≠ log → (p ∈ w.openFails ↔ p ∈ w'.openFails)
  net_eq : w.net = w'.net
  now_eq : w.now = w'.now

theorem logAgnostic_removeFile {log : String} {w w' : World}
    (h : LogAgnostic log w w') (p : String) :
    LogAgnostic log (removeFile w p) (removeFile w' p) := by
  refine ⟨?_, h.rf_eq, h.open_agree, h.net_eq, h.now_eq⟩
  intro q hq
  rw [readFile_removeFile, readFile_removeFile, h.fs_agree q hq]

theorem logAgnostic_writeFile {log : String} {w w' : World}
    (h : LogAgnostic log w w') (p c : String) :
    LogAgnostic log (writeFile w p c) (writeFile w' p c) := by
  refine ⟨?_, h.rf_eq, h.open_agree, h.net_eq, h.now_eq⟩
  intro q hq
  rw [readFile_writeFile, readFile_writeFile, h.fs_agree q hq]

theorem logAgnostic_requests {log : String} {w w' : World}
    (h : LogAgnostic log w w') (x y : List (String × Nat)) :
    LogAgnostic log { w with requests := x } { w' with requests := y } :=
  ⟨h.fs_agree, h.rf_eq, h.open_agree, h.net_eq, h.now_eq⟩

/-- The delete loop cannot distinguish log-agnostic worlds when the log is
not among its targets: same outputs, still log-agnostic worlds. -/
theorem delete_go_sim (log folder : String) (files : List String) :
    ∀ w w' : World, LogAgnostic log w w' →
      (∀ f ∈ files, joinPath folder f ≠ log) →
      LogAgnostic log (delete_files_go folder files w).1
        (delete_files_go folder files w').1 ∧
      (delete_files_go folder files w).2.1 = (delete_files_go folder files w').2.1 ∧
      (delete_files_go folder files w).2.2 = (delete_files_go folder files w').2.2 := by
  induction files with
  | nil => intro w w' h _; exact ⟨h, rfl, rfl⟩
  | cons f rest ih =>
    intro w w' h hp
    have hpath : joinPath folder f ≠ log := hp f (List.mem_cons_self f rest)
    have hrest : ∀ g ∈ rest, joinPath folder g ≠ log :=
      fun g hg => hp g (List.mem_cons_of_mem f hg)
    have hlk : List.lookup (joinPath folder f) w.fs =
        List.lookup (joinPath folder f) w'.fs := h.fs_agree _ hpath
    have hrf : w.removeFails = w'.removeFails := h.rf_eq
    simp only [delete_files_go]
    rw [← hlk, ← hrf]
    split
    · split
      · obtain ⟨hw, hd, he⟩ := ih w w' h hrest
        exact ⟨hw, hd, congrArg (List.cons _) he⟩
      · obtain ⟨hw, hd, he⟩ := ih (removeFile w (joinPath folder f))
          (removeFile w' (joinPath folder f)) (logAgnostic_removeFile h _) hrest
        exact ⟨hw, congrArg (List.cons _) hd, he⟩
    · exact ih w w' h hrest

/-- One download step cannot distinguish log-agnostic worlds when its local
target is not the log path: same outcome, still log-agnostic worlds. -/
theorem download_file_sim (log : String) (cfg : Config) (q : String)
    (w w' : World) (h : LogAgnostic log w w')
    (hq : joinPath cfg.download_folder (basename q) ≠ log) :
    (∃ w1 w1' err, download_file_from_github cfg w q = DownloadOutcome.ret w1 err ∧
       download_file_from_github cfg w' q = DownloadOutcome.ret w1' err ∧
       LogAgnostic log w1 w1') ∨
    (∃ w1 w1' exn, download_file_from_github cfg w q = DownloadOutcome.escape w1 exn ∧
       download_file_from_github cfg w' q = DownloadOutcome.escape w1' exn ∧
       LogAgnostic log w1 w1') := by
  have hnet : List.lookup (rawUrl cfg q) w'.net = List.lookup (rawUrl cfg q) w.net := by
    rw [h.net_eq]
  cases hl : List.lookup (rawUrl cfg q) w.net with
  | none =>
    left
    refine ⟨{ w with requests := w.requests ++ [(rawUrl cfg q, 30)] },
      { w' with requests := w'.requests ++ [(rawUrl cfg q, 30)] },
      some (downloadErrMsg q "connection error"), ?_, ?_,
      logAgnostic_requests h _ _⟩
    · simp [download_file_from_github, httpGet, hl]
    · simp [download_file_from_github, httpGet, hnet.trans hl]
  | some r =>
    cases r with
    | success body =>
      by_cases hmem : joinPath cfg.download_folder (basename q) ∈ w.openFails
      · have hmem' : joinPath cfg.download_folder (basename q) ∈ w'.openFails :=
          (h.open_agree _ hq).mp hmem
        right
        refine ⟨{ w with requests := w.requests ++ [(rawUrl cfg q, 30)] },
          { w' with requests := w'.requests ++ [(rawUrl cfg q, 30)] },
          "could not open " ++ joinPath cfg.download_folder (basename q),
          ?_, ?_, logAgnostic_requests h _ _⟩
        · simp [download_file_from_github, httpGet, hl, hmem]
        · simp [download_file_from_github, httpGet, hnet.trans hl, hmem']
      · have hmem' : joinPath cfg.download_folder (basename q) ∉ w'.openFails :=
          fun hc => hmem ((h.open_agree _ hq).mpr hc)
        left
        refine ⟨writeFile { w with requests := w.requests ++ [(rawUrl cfg q, 30)] }
            (joinPath cfg.download_folder (basename q)) body,
          writeFile { w' with requests := w'.requests ++ [(rawUrl cfg q, 30)] }
            (joinPath cfg.download_folder (basename q)) body, none, ?_, ?_,
          logAgnostic_writeFile (logAgnostic_requests h _ _) _ body⟩
        · simp [download_file_from_github, httpGet, hl, hmem]
        · simp [download_file_from_github, httpGet, hnet.trans hl, hmem']
    | reqError msg =>
      left
      refine ⟨{ w with requests := w.requests ++ [(rawUrl cfg q, 30)] },
        { w' with requests := w'.requests ++ [(rawUrl cfg q, 30)] },
        some (downloadErrMsg q msg), ?_, ?_, logAgnostic_requests h _ _⟩
      · simp [download_file_from_github, httpGet, hl]
      · simp [download_file_from_github, httpGet, hnet.trans hl]

/-- The download loop cannot distinguish log-agnostic worlds when the log
is not among its local targets: same outcome (same lists or same escape),
still log-agnostic worlds. -/
theorem download_go_sim (log : String) (cfg : Config) (files : List String) :
    ∀ w w' : World, ∀ dla errsa : List String, LogAgnostic log w w' →
      (∀ g ∈ files, joinPath cfg.download_folder (basename g) ≠ log) →
      (∃ w1 w1' dl errs,
         download_github_files_go cfg files w dla errsa = Except.ok (w1, dl, errs) ∧
         download_github_files_go cfg files w' dla errsa = Except.ok (w1', dl, errs) ∧
         LogAgnostic log w1 w1') ∨
      (∃ w1 w1' exn,
         download_github_files_go cfg files w dla errsa = Except.error (w1, exn) ∧
         download_github_files_go cfg files w' dla errsa = Except.error (w1', exn) ∧
         LogAgnostic log w1 w1') := by
  induction files with
  | nil =>
    intro w w' dla errsa h _
    exact Or.inl ⟨w, w', dla, errsa, rfl, rfl, h⟩
  | cons q rest ih =>
    intro w w' dla errsa h hp
    have hq : joinPath cfg.download_folder (basename q) ≠ log :=
      hp q (List.mem_cons_self q rest)
    have hrest : ∀ g ∈ rest, joinPath cfg.download_folder (basename g) ≠ log :=
      fun g hg => hp g (List.mem_cons_of_mem q hg)
    rcases download_file_sim log cfg q w w' h hq with
      ⟨w1, w1', err, hA, hA', hL⟩ | ⟨w1, w1', exn, hA, hA', hL⟩
    · cases err with
      | none =>
        rcases ih w1 w1' (dla ++ [basename q]) errsa hL hrest with
          ⟨w2, w2', dl, errs, hB, hB', hL2⟩ | ⟨w2, w2', exn2, hB, hB', hL2⟩
        · refine Or.inl ⟨w2, w2', dl, errs, ?_, ?_, hL2⟩
          · simp only [download_github_files_go]
            rw [hA]
            exact hB
          · simp only [download_github_files_go]
            rw [hA']
            exact hB'
        · refine Or.inr ⟨w2, w2', exn2, ?_, ?_, hL2⟩
          · simp only [download_github_files_go]
            rw [hA]
            exact hB
          · simp only [download_github_files_go]
            rw [hA']
            exact hB'
      | some e =>
        rcases ih w1 w1' dla (errsa ++ [e]) hL hrest with
          ⟨w2, w2', dl, errs, hB, hB', hL2⟩ | ⟨w2, w2', exn2, hB, hB', hL2⟩
        · refine Or.inl ⟨w2, w2', dl, errs, ?_, ?_, hL2⟩
          · simp only [download_github_files_go]
            rw [hA]
            exact hB
          · simp only [download_github_files_go]
            rw [hA']
            exact hB'
        · refine Or.inr ⟨w2, w2', exn2, ?_, ?_, hL2⟩
          · simp only [download_github_files_go]
            rw [hA]
            exact hB
          · simp only [download_github_files_go]
            rw [hA']
            exact hB'
    · refine Or.inr ⟨w1, w1', exn, ?_, ?_, hL⟩
      · simp only [download_github_files_go]
        rw [hA]
      · simp only [download_github_files_go]
        rw [hA']

/-- One whole Deleter+Downloader cycle cannot distinguish log-agnostic
worlds (log path disjoint from all targets): identical deleted, downloaded
and error lists or identical escape, and log-agnostic result worlds. -/
theorem run_sim (cfg : Config) (w w' : World)
    (h : LogAgnostic cfg.log_file w w')
    (hdel : ∀ f ∈ cfg.files_to_delete, joinPath cfg.delete_folder f ≠ cfg.log_file)
    (hdl : ∀ p ∈ cfg.files_to_download,
      joinPath cfg.download_folder (basename p) ≠ cfg.log_file) :
    (∃ w1 w1' d dl errs,
       run_file_management cfg w = Except.ok (w1, d, dl, errs) ∧
       run_file_management cfg w' = Except.ok (w1', d, dl, errs) ∧
       LogAgnostic cfg.log_file w1 w1') ∨
    (∃ w1 w1' exn,
       run_file_management cfg w = Except.error (w1, exn) ∧
       run_file_management cfg w' = Except.error (w1', exn) ∧
       LogAgnostic cfg.log_file w1 w1') := by
  obtain ⟨hw, hd, he⟩ :=
    delete_go_sim cfg.log_file cfg.delete_folder cfg.files_to_delete w w' h hdel
  rcases download_go_sim cfg.log_file cfg cfg.files_to_download
      (delete_files cfg w).1 (delete_files cfg w').1 [] [] hw hdl with
    ⟨w1, w1', dl, errs, hA, hA', hL⟩ | ⟨w1, w1', exn, hA, hA', hL⟩
  · refine Or.inl ⟨w1, w1', (delete_files cfg w).2.1, dl,
      (delete_files cfg w).2.2 ++ errs, ?_, ?_, hL⟩
    · simp only [run_file_management, download_github_files]
      rw [show download_github_files_go cfg cfg.files_to_download
        (delete_files cfg w).1 [] [] = Except.ok (w1, dl, errs) from hA]
    · simp only [run_file_management, download_github_files]
      rw [show download_github_files_go cfg cfg.files_to_download
        (delete_files cfg w').1 [] [] = Except.ok (w1', dl, errs) from hA']
      have hd2 : (delete_files cfg w').2.1 = (delete_files cfg w).2.1 := hd.symm
      have he2 : (delete_files cfg w').2.2 = (delete_files cfg w).2.2 := he.symm
      rw [show (delete_files cfg w').2.1 = (delete_files cfg w).2.1 from hd2,
        show (delete_files cfg w').2.2 = (delete_files cfg w).2.2 from he2]
  · refine Or.inr ⟨w1, w1', exn, ?_, ?_, hL⟩
    · simp only [run_file_management, download_github_files]
      rw [show download_github_files_go cfg cfg.files_to_download
        (delete_files cfg w).1 [] [] = Except.error (w1, exn) from hA]
    · simp only [run_file_management, download_github_files]
      rw [show download_github_files_go cfg cfg.files_to_download
        (delete_files cfg w').1 [] [] = Except.error (w1', exn) from hA']

theorem logAgnostic_write_right {log : String} {w w' : World}
    (h : LogAgnostic log w w') (c : String) (lw : List String) :
    LogAgnostic log w { writeFile w' log c with logWrites := lw } := by
  refine ⟨?_, h.rf_eq, h.open_agree, h.net_eq, h.now_eq⟩
  intro q hq
  have e1 : readFile { writeFile w' log c with logWrites := lw } q =
      readFile (writeFile w' log c) q := rfl
  rw [e1, readFile_writeFile, if_neg hq]
  exact h.fs_agree q hq

theorem logAgnostic_write_left {log : String} {w w' : World}
    (h : LogAgnostic log w w') (c : String) (lw : List String) :
    LogAgnostic log { writeFile w log c with logWrites := lw } w' := by
  refine ⟨?_, h.rf_eq, h.open_agree, h.net_eq, h.now_eq⟩
  intro q hq
  have e1 : readFile { writeFile w log c with logWrites := lw } q =
      readFile (writeFile w log c) q := rfl
  rw [e1, readFile_writeFile, if_neg hq]
  exact h.fs_agree q hq

/-- The Logger keeps worlds log-agnostic whatever each side does (write
successfully or fail to open the log). -/
theorem log_completion_logAgnostic (cfg : Config) (w w' : World)
    (h : LogAgnostic cfg.log_file w w') (d dl e : List String) (a : Nat) :
    LogAgnostic cfg.log_file (log_completion cfg w d dl e a).1
      (log_completion cfg w' d dl e a).1 := by
  by_cases h1 : cfg.log_file ∈ w.openFails <;>
    by_cases h2 : cfg.log_file ∈ w'.openFails
  · simpa [log_completion, h1, h2] using h
  · simpa [log_completion, h1, h2] using
      logAgnostic_write_right h (logEntry d dl e w'.now a) _
  · simpa [log_completion, h1, h2] using
      logAgnostic_write_left h (logEntry d dl e w.now a) _
  · simpa [log_completion, h1, h2] using
      logAgnostic_write_left
        (logAgnostic_write_right h (logEntry d dl e w'.now a) _)
        (logEntry d dl e w.now a) _

/-- The whole retry loop cannot distinguish log-agnostic worlds (log path
disjoint from every delete/download target): same exit code, same sleeps,
same slept time, same attempt count, and log-agnostic final worlds. -/
theorem mainLoop_sim (cfg : Config)
    (hdel : ∀ f ∈ cfg.files_to_delete, joinPath cfg.delete_folder f ≠ cfg.log_file)
    (hdl : ∀ p ∈ cfg.files_to_download,
      joinPath cfg.download_folder (basename p) ≠ cfg.log_file) :
    ∀ r a : Nat, ∀ w w' : World, LogAgnostic cfg.log_file w w' →
      (mainLoop cfg w a r).exitCode = (mainLoop cfg w' a r).exitCode ∧
      (mainLoop cfg w a r).sleeps = (mainLoop cfg w' a r).sleeps ∧
      (mainLoop cfg w a r).sleptSeconds = (mainLoop cfg w' a r).sleptSeconds ∧
      (mainLoop cfg w a r).attempts = (mainLoop cfg w' a r).attempts ∧
      LogAgnostic cfg.log_file (mainLoop cfg w a r).world (mainLoop cfg w' a r).world := by
  intro r
  induction r with
  | zero => intro a w w' h; exact ⟨rfl, rfl, rfl, rfl, h⟩
  | succ r ih =>
    intro a w w' h
    rcases run_sim cfg w w' h hdel hdl with
      ⟨w1, w1', d, dl, errs, hA, hA', hL⟩ | ⟨w1, w1', exn, hA, hA', hL⟩
    · have hlog := log_completion_logAgnostic cfg w1 w1' hL d dl errs a
      by_cases he : errs.isEmpty = true
      · simp only [mainLoop, hA, hA', he, if_true]
        exact ⟨trivial, trivial, trivial, trivial, hlog⟩
      · by_cases hr : 0 < r
        · obtain ⟨e1, e2, e3, e4, hw⟩ := ih (a + 1)
            (log_completion cfg w1 d dl errs a).1
            (log_completion cfg w1' d dl errs a).1 hlog
          simp only [mainLoop, hA, hA', he, hr, if_true, Bool.false_eq_true,
            if_false]
          exact ⟨e1, by simp [e2], by simp [e3], by simp [e4], hw⟩
        · simp only [mainLoop, hA, hA', he, hr, Bool.false_eq_true, if_false]
          exact ⟨trivial, trivial, trivial, trivial, hlog⟩
    · by_cases hr : 0 < r
      · obtain ⟨e1, e2, e3, e4, hw⟩ := ih (a + 1) w1 w1' hL
        simp only [mainLoop, hA, hA', hr, if_true]
        exact ⟨e1, by simp [e2], by simp [e3], by simp [e4], hw⟩
      · simp only [mainLoop, hA, hA', hr, if_false]
        exact ⟨trivial, trivial, trivial, trivial, hL⟩

/-- C7: a log-write failure is caught inside the Logger (it returns the
world unchanged with `false` instead of raising), and it does not abort the
run or change its control flow: making the log file unopenable leaves the
exit code, the number of sleeps, and the number of attempts of `main`
unchanged (log path disjoint from every delete/download target), so the
exit-code decision depends only on the per-attempt error lists. -/
theorem log_failure_isolated (cfg : Config) (w : World)
    (hdel : ∀ f ∈ cfg.files_to_delete, joinPath cfg.delete_folder f ≠ cfg.log_file)
    (hdl : ∀ p ∈ cfg.files_to_download,
      joinPath cfg.download_folder (basename p) ≠ cfg.log_file) :
    (∀ d dl e a, cfg.log_file ∈ w.openFails →
       log_completion cfg w d dl e a = (w, false)) ∧
    ((main cfg { w with openFails := cfg.log_file :: w.openFails }).exitCode =
        (main cfg w).exitCode ∧
     (main cfg { w with openFails := cfg.log_file :: w.openFails }).sleeps =
        (main cfg w).sleeps ∧
     (main cfg { w with openFails := cfg.log_file :: w.openFails }).attempts =
        (main cfg w).attempts) := by
  constructor
  · intro d dl e a hmem
    simp [log_completion, hmem]
  · have hrel : LogAgnostic cfg.log_file
        { w with openFails := cfg.log_file :: w.openFails } w := by
      refine ⟨fun p _ => rfl, rfl, ?_, rfl, rfl⟩
      intro p hp
      constructor
      · intro hmem
        rcases List.mem_cons.mp hmem with hc | hmem
        · exact absurd hc hp
        · exact hmem
      · intro hmem
        exact List.mem_cons_of_mem _ hmem
    obtain ⟨e1, e2, _e3, e4, _⟩ := mainLoop_sim cfg hdel hdl cfg.max_retries 1
      { w with openFails := cfg.log_file :: w.openFails } w hrel
    exact ⟨e1, e2, e4⟩

/-- World `wF` with an unopenable log file. -/
def wL : World := { wF with openFails := ["/log.txt"] }

theorem log_failure_isolated_witness :
    log_completion cfgF wL [] [] [] 1 = (wL, false) ∧
    (main cfgF { wL with openFails := cfgF.log_file :: wL.openFails }).exitCode =
      (main cfgF wL).exitCode :=
  ⟨(log_failure_isolated cfgF wL (by decide) (by decide)).1 [] [] [] 1 (by decide),
   (log_failure_isolated cfgF wL (by decide) (by decide)).2.1⟩

end FileManager
